import Mathlib

/-!
# sidesail: faucet dispense guard and drivechain-server transaction facade

A shallow embedding of `faucet-backend/main.go` (the `Faucet` rate limiter and its
`dispenseCoins` handler) and of `drivechain-server/server/server.go`
(`SendTransaction`, `ListRecentBlocks`), followed by the properties established
about them.

Modelling conventions

* A Go `float64` is a value of `F64`: NaN, an infinity, or a finite value carried as
  the rational number it denotes. Comparisons are the IEEE ones; every arithmetic
  operation and every conversion from an integer returns the exact result rounded to the
  nearest float64, ties to even (`F64.ofRat`). A conversion to `int64` of a value outside
  the int64 range, which Go leaves to the implementation, gives the amd64 result.
* A Go `map[string]bool` is an association list with unique keys; a lookup of a missing
  key (and any lookup in a nil map) yields `false`.
* Calls into libraries and collaborators (`strconv.ParseFloat`, `btcutil.DecodeAddress`,
  `drivechaind.CheckValidDepositAddress`, the sender, wallet and bitcoind clients) are
  parameters of the model. Every call made to a collaborator is recorded, so that
  "is not invoked" is a statement about the record.
* The handler `dispenseCoins` runs entirely under `f.mu`, so a run of handlers and
  resets is a sequence of atomic steps on the guard state.
-/

namespace Sidesail

/-! ## float64 -/

/-- A Go `float64` value: NaN, an infinity, or a finite value given by the rational number
it denotes (the sign of a zero is not kept). -/
inductive F64 where
  | nan
  | inf (negative : Bool)
  | fin (q : ℚ)
  deriving DecidableEq

/-- Auxiliary recursion of `bitLog2`, on the fuel `k`. -/
def bitLog2Fuel : Nat → Nat → Nat
  | 0, _ => 0
  | k + 1, n => if n < 2 then 0 else bitLog2Fuel k (n / 2) + 1

/-- Largest `e` with `2 ^ e ≤ n`, for positive `n`. -/
def bitLog2 (n : Nat) : Nat := bitLog2Fuel n n

/-- Largest `e` with `2 ^ e ≤ n / d`, for positive `n` and `d`. -/
def floorLog2 (n d : Nat) : Int :=
  let e : Int := (bitLog2 n : Int) - (bitLog2 d : Int)
  if (if 0 ≤ e then decide (d * 2 ^ e.toNat ≤ n) else decide (d ≤ n * 2 ^ (-e).toNat)) then e
  else e - 1

/-- The integer nearest to `n / d`, the even one of the two when `n / d` lies half way. -/
def roundHalfEven (n d : Nat) : Nat :=
  let f := n / d
  let r := n % d
  if 2 * r < d then f
  else if d < 2 * r then f + 1
  else if f % 2 = 0 then f else f + 1

namespace F64

/-- The float64 nearest to the rational `q` (IEEE 754 binary64, round to nearest, ties to
even): 53 significant bits, least exponent -1074 for the last place, an infinity from
`2 ^ 1024` on. Every float64 operation below returns its exact result rounded this way. -/
def ofRat (q : ℚ) : F64 :=
  if q = 0 then fin 0
  else
    let n := q.num.natAbs
    let d := q.den
    let x : Int := max (floorLog2 n d - 52) (-1074)
    let m : Nat :=
      if 0 ≤ x then roundHalfEven n (d * 2 ^ x.toNat) else roundHalfEven (n * 2 ^ (-x).toNat) d
    let r : ℚ := if 0 ≤ x then (m : ℚ) * 2 ^ x.toNat else (m : ℚ) / 2 ^ (-x).toNat
    if 2 ^ 1024 ≤ r then inf (decide (q < 0))
    else fin (if q < 0 then -r else r)

/-- Go `float64(a)` for an integer `a`. -/
def ofInt (a : Int) : F64 := ofRat (a : ℚ)

/-- Go `-a` on float64. -/
def neg : F64 → F64
  | nan => nan
  | inf n => inf (!n)
  | fin a => fin (-a)

/-- Go `a + b` on float64. -/
def add : F64 → F64 → F64
  | nan, _ => nan
  | _, nan => nan
  | inf n, inf m => if n = m then inf n else nan
  | inf n, fin _ => inf n
  | fin _, inf m => inf m
  | fin a, fin b => ofRat (a + b)

/-- Go `a - b` on float64. -/
def sub (a b : F64) : F64 := add a (neg b)

/-- Go `a * b` on float64. -/
def mul : F64 → F64 → F64
  | nan, _ => nan
  | _, nan => nan
  | inf n, inf m => inf (n != m)
  | inf n, fin b => if b = 0 then nan else inf (n != decide (b < 0))
  | fin a, inf m => if a = 0 then nan else inf (decide (a < 0) != m)
  | fin a, fin b => ofRat (a * b)

/-- Go `a / b` on float64. -/
def div : F64 → F64 → F64
  | nan, _ => nan
  | _, nan => nan
  | inf _, inf _ => nan
  | inf n, fin b => inf (n != decide (b < 0))
  | fin _, inf _ => fin 0
  | fin a, fin b =>
    if b = 0 then (if a = 0 then nan else inf (decide (a < 0)))
    else ofRat (a / b)

/-- Go `a > b` on float64. -/
def gt : F64 → F64 → Bool
  | nan, _ => false
  | _, nan => false
  | inf n, inf m => !n && m
  | inf n, fin _ => !n
  | fin _, inf m => m
  | fin a, fin b => decide (b < a)

/-- Go `a < b` on float64. -/
def lt (a b : F64) : Bool := gt b a

/-- Go `a == b` on float64. -/
def eq : F64 → F64 → Bool
  | inf n, inf m => n == m
  | fin a, fin b => decide (a = b)
  | _, _ => false

/-- Go `int64(f)` for a float64 `f`: the fractional part is discarded. When the value is
not in the int64 range (or is NaN or infinite) Go leaves the result to the implementation;
the value taken here is the one of amd64, `-2 ^ 63`. -/
def toInt64 : F64 → Int
  | fin q =>
    if -(2 : ℚ) ^ 63 ≤ q ∧ q < (2 : ℚ) ^ 63 then Int.tdiv q.num q.den else -2 ^ 63
  | _ => -2 ^ 63

end F64

/-- The unexported `round` of btcutil: `Amount(f - 0.5)` below zero, `Amount(f + 0.5)` otherwise. -/
def round (f : F64) : Int :=
  if F64.lt f (F64.fin 0) then F64.toInt64 (F64.sub f (F64.fin (1 / 2)))
  else F64.toInt64 (F64.add f (F64.fin (1 / 2)))

/-- Constant `btcutil.SatoshiPerBitcoin`. -/
def SatoshiPerBitcoin : ℚ := 100000000

/-- Function `btcutil.NewAmount`: an error exactly for NaN and the infinities, else
`round(f * SatoshiPerBitcoin)`. The result is `none` on error. -/
def NewAmount (f : F64) : Option Int :=
  match f with
  | F64.nan => none
  | F64.inf _ => none
  | F64.fin _ => some (round (F64.mul f (F64.fin SatoshiPerBitcoin)))

/-- Table `pow10tab` of package math: the float64 constants `1e00` to `1e31`. -/
def pow10tab (i : Nat) : F64 := F64.ofRat ((10 : ℚ) ^ i)

/-- Table `pow10postab32` of package math: the float64 constants `1e00, 1e32, ..., 1e288`. -/
def pow10postab32 (i : Nat) : F64 := F64.ofRat ((10 : ℚ) ^ (32 * i))

/-- Table `pow10negtab32` of package math: the float64 constants `1e-00, 1e-32, ..., 1e-320`. -/
def pow10negtab32 (i : Nat) : F64 := F64.ofRat (1 / (10 : ℚ) ^ (32 * i))

/-- Function `math.Pow10`. -/
def Pow10 (n : Int) : F64 :=
  if 0 ≤ n ∧ n ≤ 308 then F64.mul (pow10postab32 (n.toNat / 32)) (pow10tab (n.toNat % 32))
  else if -323 ≤ n ∧ n ≤ 0 then
    F64.div (pow10negtab32 ((-n).toNat / 32)) (pow10tab ((-n).toNat % 32))
  else if 0 < n then F64.inf false
  else F64.fin 0

/-! ## Go maps with boolean values -/

/-- A non-nil `map[string]bool`: at most one entry per key. -/
structure BoolMap where
  entries : List (String × Bool)
  deriving DecidableEq

namespace BoolMap

/-- Go `make(map[string]bool)`. -/
def make : BoolMap := ⟨[]⟩

/-- Go `m[k]`: the stored value, `false` for a missing key. -/
def get (m : BoolMap) (k : String) : Bool :=
  match m.entries.lookup k with
  | some b => b
  | none => false

/-- Go `m[k] = v`. -/
def set (m : BoolMap) (k : String) (v : Bool) : BoolMap :=
  ⟨(k, v) :: m.entries.filter (fun p => p.1 != k)⟩

end BoolMap

/-- Go `m[k]` on a map that may be nil (`none`): reading a nil map yields `false`. -/
def readMap (m : Option BoolMap) (k : String) : Bool :=
  match m with
  | some m => m.get k
  | none => false

/-! ## faucet-backend/main.go -/

/-- Type `drivechaind.TransferType`. -/
inductive TransferType where
  | Mainchain
  | Sidechain
  deriving DecidableEq

/-- The guard fields of `Faucet` (`sender` is passed to the handler, `mu` is the
atomicity of a step). -/
structure Faucet where
  dispensed : BoolMap
  dispensedIP : Option BoolMap
  totalDispensed : Int
  deriving DecidableEq

def CoinsPerRequest : Int := 1

def MaxCoinsPer5Min : Int := 100

def StatusBadRequest : Nat := 400

def StatusForbidden : Nat := 403

def StatusTooManyRequests : Nat := 429

/-- The guard state built by `NewFaucet`: `dispensed` is made, `dispensedIP` is left nil. -/
def NewFaucet : Faucet :=
  { dispensed := BoolMap.make, dispensedIP := none, totalDispensed := 0 }

/-- The `ticker.C` case of `resetHandler`, executed under the lock. -/
def resetHandler (_f : Faucet) : Faucet :=
  { totalDispensed := 0, dispensed := BoolMap.make, dispensedIP := some BoolMap.make }

structure DispenseRequest where
  Destination : String
  Amount : String
  deriving DecidableEq

/-- Library functions that `validateDispenseArgs` calls. -/
structure Lib where
  /-- Call `strconv.ParseFloat(s, 64)`; `none` when it returns an error. -/
  ParseFloat : String → Option F64
  /-- Whether `btcutil.DecodeAddress(s, &chaincfg.MainNetParams)` returns a nil error. -/
  DecodeAddress : String → Bool
  /-- Whether `drivechaind.CheckValidDepositAddress(s)` returns a nil error. -/
  CheckValidDepositAddress : String → Bool
  /-- Rendering of a float by the verb `%.8f`. -/
  fmtFloat8 : F64 → String

/-- Result of `validateDispenseArgs`: the amount and transfer type, or the error and status. -/
inductive Validated where
  | ok (amount : Int) (transferType : TransferType)
  | err (msg : String) (status : Nat)
  deriving DecidableEq

def validateDispenseArgs (lib : Lib) (f : Faucet) (req : DispenseRequest) : Validated :=
  if req.Destination = "" then
    Validated.err "'destination' must be set" StatusBadRequest
  else
    match lib.ParseFloat req.Amount with
    | none => Validated.err (req.Amount ++ " is not a valid number") StatusBadRequest
    | some amountFloat =>
      if F64.gt amountFloat (F64.fin 1) || F64.eq amountFloat (F64.fin 0) then
        Validated.err "amount must be less than 1, and greater than zero" StatusBadRequest
      else
        match NewAmount amountFloat with
        | none =>
          Validated.err
            (lib.fmtFloat8 amountFloat ++ " is not a valid bitcoin amount, expected format like 0.12345678")
            StatusBadRequest
        | some amount =>
          if f.totalDispensed ≥ MaxCoinsPer5Min then
            Validated.err "faucet limit reached, try again later" StatusTooManyRequests
          else if f.dispensed.get req.Destination then
            Validated.err "address have already received coins" StatusForbidden
          else
            let mainchainOk := lib.DecodeAddress req.Destination
            let sidechainOk := lib.CheckValidDepositAddress req.Destination
            if mainchainOk then Validated.ok amount TransferType.Mainchain
            else if sidechainOk then Validated.ok amount TransferType.Sidechain
            else
              Validated.err
                (req.Destination ++ " is not a valid bitcoin address nor sidechain address")
                StatusBadRequest

/-- What the handler reads of an `*http.Request`. -/
structure Request where
  /-- The decoded JSON body; `none` when decoding fails. -/
  body : Option DispenseRequest
  RemoteAddr : String
  /-- Value of `r.Header.Get("X-Forwarded-For")`, empty when the header is absent. -/
  XForwardedFor : String
  /-- Value of `r.Header.Get("X-Real-Ip")`, empty when the header is absent. -/
  XRealIp : String
  deriving DecidableEq

def getIPFromRequest (r : Request) : String :=
  if r.XForwardedFor ≠ "" then r.XForwardedFor
  else if r.XRealIp ≠ "" then r.XRealIp
  else r.RemoteAddr

/-- Result of `sender.SendCoins`. -/
inductive SendResult where
  | txid (t : String)
  | err (e : String)
  deriving DecidableEq

/-- The sender as seen by one handler run: `SendCoins(destination, amount, transferType)`. -/
abbrev Sender := String → Int → TransferType → SendResult

/-- What the handler writes: `writeError(w, msg, status)` or the JSON object with the txid. -/
inductive Response where
  | error (msg : String) (status : Nat)
  | json (txid : String)
  deriving DecidableEq

/-- A recorded call of `SendCoins`. -/
structure SendCall where
  destination : String
  amount : Int
  transferType : TransferType
  deriving DecidableEq

/-- One run of `dispenseCoins`. -/
structure Outcome where
  /-- Guard state when the handler returns. -/
  faucet : Faucet
  response : Response
  /-- The call of `SendCoins` made by the handler, if it made one. -/
  sendCall : Option SendCall
  /-- Guard state after the mark, while `SendCoins` runs, if the handler got there. -/
  marked : Option Faucet
  deriving DecidableEq

def dispenseCoins (lib : Lib) (sender : Sender) (f : Faucet) (r : Request) : Outcome :=
  match r.body with
  | none =>
    { faucet := f, response := Response.error "invalid request: must set address and amount" StatusBadRequest,
      sendCall := none, marked := none }
  | some req =>
    match validateDispenseArgs lib f req with
    | Validated.err msg status =>
      { faucet := f, response := Response.error msg status, sendCall := none, marked := none }
    | Validated.ok amount transferType =>
      let ip := getIPFromRequest r
      if readMap f.dispensedIP ip then
        { faucet := f, response := Response.error "dispense threshold exceeded" StatusTooManyRequests,
          sendCall := none, marked := none }
      else
        let f1 : Faucet :=
          { f with
            dispensed := (f.dispensed.set req.Destination true).set ip true
            totalDispensed := f.totalDispensed + CoinsPerRequest }
        match sender req.Destination amount transferType with
        | SendResult.err e =>
          -- undo the dispensation
          let f2 : Faucet :=
            { f1 with
              dispensed := (f1.dispensed.set req.Destination false).set ip false
              totalDispensed := f1.totalDispensed - CoinsPerRequest }
          { faucet := f2, response := Response.error ("could not dispense coins: " ++ e) StatusBadRequest,
            sendCall := some ⟨req.Destination, amount, transferType⟩, marked := some f1 }
        | SendResult.txid t =>
          { faucet := f1, response := Response.json t,
            sendCall := some ⟨req.Destination, amount, transferType⟩, marked := some f1 }

/-- An atomic step on the guard: a handled request (with the sender's behaviour at that
time) or a tick of the reset timer. -/
inductive Event where
  | request (r : Request) (sender : Sender)
  | reset

/-- The outcomes of the requests of a window: a sequence of requests without a reset. -/
def outcomes (lib : Lib) (f : Faucet) : List (Request × Sender) → List Outcome
  | [] => []
  | (r, sender) :: rest =>
    let o := dispenseCoins lib sender f r
    o :: outcomes lib o.faucet rest

/-- Every guard state the faucet passes through while handling the events, the state
between the mark and the send included. -/
def visited (lib : Lib) (f : Faucet) : List Event → List Faucet
  | [] => [f]
  | Event.request r sender :: rest =>
    let o := dispenseCoins lib sender f r
    f :: (o.marked.toList ++ visited lib o.faucet rest)
  | Event.reset :: rest => f :: visited lib (resetHandler f) rest

/-! ### Concrete inputs -/

/-- A library that agrees with Go on the strings used below: three decimal literals parsed,
two mainchain addresses decoded, one sidechain deposit address, and the `%.8f` rendering of
the non-finite floats (the only ones `validateDispenseArgs` renders). -/
def sampleLib : Lib where
  ParseFloat := fun s =>
    if s = "0.5" then some (F64.fin (1 / 2))
    else if s = "-0.5" then some (F64.fin (-1 / 2))
    else if s = "1" then some (F64.fin 1)
    else none
  DecodeAddress := fun s =>
    s == "1BvBMSEYstWetqTFn5Au4m4GFg7xJaNVN2" || s == "1A1zP1eP5QGefi2DMPTfTL5SLmv7DivfNa"
  CheckValidDepositAddress := fun s => s == "s0_1A1zP1eP5QGefi2DMPTfTL5SLmv7DivfNa_8d1b2c"
  fmtFloat8 := fun
    | F64.nan => "NaN"
    | F64.inf false => "+Inf"
    | F64.inf true => "-Inf"
    | F64.fin _ => ""

def addrA : String := "1BvBMSEYstWetqTFn5Au4m4GFg7xJaNVN2"

def addrB : String := "1A1zP1eP5QGefi2DMPTfTL5SLmv7DivfNa"

def sendOk : Sender := fun _ _ _ => SendResult.txid "tx"

def sendFail : Sender := fun _ _ _ => SendResult.err "rpc down"

def claimReq (dest amount ip : String) : Request :=
  { body := some ⟨dest, amount⟩, RemoteAddr := ip, XForwardedFor := "", XRealIp := "" }

/-- A claim for address B whose `X-Forwarded-For` header carries the string of address A. -/
def forwardedClaim : Request :=
  { body := some ⟨addrB, "0.5"⟩, RemoteAddr := "10.0.0.2:5000", XForwardedFor := addrA,
    XRealIp := "" }

/-- The guard after address A was paid to client 10.0.0.1:5000. -/
def afterFirstClaim : Faucet :=
  (dispenseCoins sampleLib sendOk NewFaucet (claimReq addrA "0.5" "10.0.0.1:5000")).faucet

/-! ## drivechain-server/server/server.go -/

deriving instance DecidableEq for Except

/-- A Go `error` value as far as the server builds or forwards it. -/
inductive Err where
  /-- Value `connect.NewError(connect.CodeInvalidArgument, err)` with the text of `err`. -/
  | invalidArgument (msg : String)
  /-- Value `fmt.Errorf("<context>: %w", cause)`. -/
  | wrapped (context : String) (cause : Err)
  /-- Any other error, produced by a library or a collaborator. -/
  | other (msg : String)
  deriving DecidableEq

/-- Enum `corepb.EstimateSmartFeeRequest_EstimateMode`. -/
inductive EstimateMode where
  | UNSPECIFIED
  | ECONOMICAL
  | CONSERVATIVE
  deriving DecidableEq

/-- Message `GetBlockResponse` as far as it is read. -/
structure BlockInfo where
  Time : Int
  Height : Nat
  Hash : String
  deriving DecidableEq

/-- The bitcoind proxy: each field is the answer of the RPC of that name. -/
structure Bitcoind where
  /-- Field `FeeRate` of the answer to a request with `ConfTarget` and `EstimateMode`. -/
  EstimateSmartFee : Int → EstimateMode → Except Err F64
  /-- Field `Blocks` (uint32) of the answer. -/
  GetBlockchainInfo : Except Err Nat
  /-- Field `Hash` of the answer to a request for `Height`. -/
  GetBlockHash : Nat → Except Err String
  GetBlock : String → Except Err BlockInfo

/-- The bdk wallet. Destinations are the entries of a `map[string]btcutil.Amount`. -/
structure Wallet where
  CreateTransaction : List (String × Int) → F64 → Except Err String
  SignTransaction : String → Except Err String
  BroadcastTransaction : String → Except Err String

structure Server where
  wallet : Wallet
  bitcoind : Bitcoind

/-- A recorded call to a collaborator. -/
inductive Call where
  | EstimateSmartFee (confTarget : Int) (mode : EstimateMode)
  | CreateTransaction (destinations : List (String × Int)) (feeRate : F64)
  | SignTransaction (created : String)
  | BroadcastTransaction (signed : String)
  deriving DecidableEq

/-- Message `pb.SendTransactionRequest`. `Destinations` lists the entries of the map in the
order in which the `range` loop visits them; an amount is a 64-bit integer. -/
structure SendTransactionRequest where
  Destinations : List (String × Int)
  SatoshiPerVbyte : F64

/-- Go conversion of an integer to `int64` (`btcutil.Amount`). -/
def int64 (n : Int) : Int := (n + 2 ^ 63) % 2 ^ 64 - 2 ^ 63

/-- Constant `btcutil.AmountSatoshi`. -/
def AmountSatoshi : Int := -8

/-- Method `Amount.ToUnit`: `float64(a) / math.Pow10(int(u + 8))`. -/
def ToUnit (a : Int) (u : Int) : F64 := F64.div (F64.ofInt a) (Pow10 (u + 8))

def dustLimit : Int := 546

/-- Lines 49-69 of `SendTransaction`: the fee rate used, and the calls made to find it. -/
def resolveFeeRate (bitcoind : Bitcoind) (satoshiPerVbyte : F64) : Except Err F64 × List Call :=
  if F64.eq satoshiPerVbyte (F64.fin 0) then
    match bitcoind.EstimateSmartFee 2 EstimateMode.ECONOMICAL with
    | Except.error e => (Except.error e, [Call.EstimateSmartFee 2 EstimateMode.ECONOMICAL])
    | Except.ok feeRate =>
      match NewAmount feeRate with
      | none =>
        (Except.error (Err.other "invalid bitcoin amount"),
          [Call.EstimateSmartFee 2 EstimateMode.ECONOMICAL])
      | some btcPerKb =>
        let btcPerByte := Int.tdiv btcPerKb 1000
        (Except.ok (ToUnit btcPerByte AmountSatoshi),
          [Call.EstimateSmartFee 2 EstimateMode.ECONOMICAL])
  else (Except.ok satoshiPerVbyte, [])

/-- Lines 71-82 of `SendTransaction`: the loop over the destinations. `amountString` is
`btcutil.Amount.String`. -/
def collectDestinations (amountString : Int → String) :
    List (String × Int) → Except Err (List (String × Int))
  | [] => Except.ok []
  | (address, amount) :: rest =>
    if amount < dustLimit then
      Except.error (Err.invalidArgument
        ("amount to " ++ address ++ " is below dust limit (" ++ amountString dustLimit ++ "): "
          ++ amountString (int64 amount)))
    else
      match collectDestinations amountString rest with
      | Except.error e => Except.error e
      | Except.ok destinations => Except.ok ((address, int64 amount) :: destinations)

/-- Lines 84-107 of `SendTransaction`: create, sign, broadcast. -/
def createSignBroadcast (wallet : Wallet) (destinations : List (String × Int)) (feeRate : F64) :
    Except Err String × List Call :=
  match wallet.CreateTransaction destinations feeRate with
  | Except.error e => (Except.error e, [Call.CreateTransaction destinations feeRate])
  | Except.ok created =>
    match wallet.SignTransaction created with
    | Except.error e =>
      (Except.error e, [Call.CreateTransaction destinations feeRate, Call.SignTransaction created])
    | Except.ok signed =>
      match wallet.BroadcastTransaction signed with
      | Except.error e =>
        (Except.error e,
          [Call.CreateTransaction destinations feeRate, Call.SignTransaction created,
           Call.BroadcastTransaction signed])
      | Except.ok txid =>
        (Except.ok txid,
          [Call.CreateTransaction destinations feeRate, Call.SignTransaction created,
           Call.BroadcastTransaction signed])

/-- The result of `SendTransaction` (the txid or the error) and the calls it made to its
collaborators, in order. -/
def SendTransaction (amountString : Int → String) (s : Server) (c : SendTransactionRequest) :
    Except Err String × List Call :=
  if c.Destinations.length = 0 then
    (Except.error (Err.invalidArgument "must provide at least one destination"), [])
  else if F64.lt c.SatoshiPerVbyte (F64.fin 0) then
    (Except.error (Err.invalidArgument "fee rate cannot be negative"), [])
  else
    match resolveFeeRate s.bitcoind c.SatoshiPerVbyte with
    | (Except.error e, calls) => (Except.error e, calls)
    | (Except.ok satoshiPerVbyte, calls) =>
      match collectDestinations amountString c.Destinations with
      | Except.error e => (Except.error e, calls)
      | Except.ok destinations =>
        let (result, later) := createSignBroadcast s.wallet destinations satoshiPerVbyte
        (result, calls ++ later)

/-- Message `pb.ListRecentBlocksResponse_RecentBlock`. -/
structure RecentBlock where
  BlockTime : Int
  BlockHeight : Nat
  Hash : String
  deriving DecidableEq

def numBlocks : Nat := 10

/-- The task submitted to the pool for index `i`; `blocks` is `info.Msg.Blocks`. The height
is computed in uint32. -/
def fetchBlock (bitcoind : Bitcoind) (blocks : Nat) (i : Nat) : Except Err RecentBlock :=
  let height := (blocks + 2 ^ 32 - i % 2 ^ 32) % 2 ^ 32
  match bitcoind.GetBlockHash height with
  | Except.error e => Except.error (Err.wrapped ("get block hash " ++ toString height) e)
  | Except.ok hash =>
    match bitcoind.GetBlock hash with
    | Except.error e => Except.error (Err.wrapped ("get block " ++ hash) e)
    | Except.ok block =>
      Except.ok { BlockTime := block.Time, BlockHeight := block.Height, Hash := block.Hash }

/-- Method `p.Wait()` of a result pool `WithCancelOnError().WithFirstError()` whose tasks
finish in the order `completion`: the results in that order, or the first error. -/
def poolWait {α : Type} (task : Nat → Except Err α) : List Nat → Except Err (List α)
  | [] => Except.ok []
  | i :: rest =>
    match task i with
    | Except.error e => Except.error e
    | Except.ok v =>
      match poolWait task rest with
      | Except.error e => Except.error e
      | Except.ok vs => Except.ok (v :: vs)

/-- The order of `slices.SortFunc` with `-cmp.Compare(a.BlockHeight, b.BlockHeight)`:
`a` may stand before `b` when its height is not smaller. -/
def heightDescending (a b : RecentBlock) : Prop := b.BlockHeight ≤ a.BlockHeight

instance : DecidableRel heightDescending := fun a b => Nat.decLe b.BlockHeight a.BlockHeight

instance : IsTotal RecentBlock heightDescending :=
  ⟨fun a b => Nat.le_total b.BlockHeight a.BlockHeight⟩

instance : IsTrans RecentBlock heightDescending :=
  ⟨fun _ _ _ hab hbc => Nat.le_trans hbc hab⟩

/-- The blocks returned by `ListRecentBlocks`, or its error. `completion` is the order in
which the tasks `0, ..., numBlocks - 1` finish. -/
def ListRecentBlocks (s : Server) (completion : List Nat) : Except Err (List RecentBlock) :=
  match s.bitcoind.GetBlockchainInfo with
  | Except.error e => Except.error e
  | Except.ok blocks =>
    match poolWait (fetchBlock s.bitcoind blocks) completion with
    | Except.error e => Except.error e
    | Except.ok blocks => Except.ok (List.insertionSort heightDescending blocks)

/-! ### Concrete collaborators -/

/-- A chain with blocks at the heights `0, ..., tip`; the hash of the block at height `h`
is the letter x written `h` times. Every other request fails. -/
def sampleChain (tip : Nat) (quote : Except Err F64) : Bitcoind where
  EstimateSmartFee := fun _ _ => quote
  GetBlockchainInfo := Except.ok tip
  GetBlockHash := fun h =>
    if h ≤ tip then Except.ok (String.mk (List.replicate h 'x'))
    else Except.error (Err.other "Block height out of range")
  GetBlock := fun hash =>
    if hash.length ≤ tip then Except.ok { Time := 0, Height := hash.length, Hash := hash }
    else Except.error (Err.other "Block not found")

/-- The float64 nearest to 0.00011, a quote of 11000 satoshi per kB. -/
def sampleQuote : F64 := F64.ofRat (11 / 100000)

/-- The float64 nearest to 0.000015, a quote of 1500 satoshi per kB. -/
def lowQuote : F64 := F64.ofRat (15 / 1000000)

/-- A wallet whose three stages all succeed. -/
def sampleWallet : Wallet where
  CreateTransaction := fun _ _ => Except.ok "unsigned"
  SignTransaction := fun _ => Except.ok "signed"
  BroadcastTransaction := fun _ => Except.ok "txid"

def sampleServer (tip : Nat) (quote : Except Err F64) : Server :=
  { wallet := sampleWallet, bitcoind := sampleChain tip quote }

/-- A rendering that agrees with `btcutil.Amount.String` on the two amounts 546 and 500. -/
def sampleAmountString : Int → String := fun a =>
  if a = 546 then "0.00000546 BTC" else if a = 500 then "0.000005 BTC" else ""

/-! ## Properties of the faucet -/

theorem validateDispenseArgs_ok_total (lib : Lib) (f : Faucet) (req : DispenseRequest)
    (amount : Int) (t : TransferType)
    (h : validateDispenseArgs lib f req = Validated.ok amount t) :
    f.totalDispensed < MaxCoinsPer5Min := by
  unfold validateDispenseArgs at h
  by_contra hc
  have hge : f.totalDispensed ≥ MaxCoinsPer5Min := not_lt.mp hc
  simp only [hge, if_true] at h
  split at h
  · cases h
  · split at h
    · cases h
    · split at h
      · cases h
      · split at h <;> cases h

theorem dispenseCoins_total_le (lib : Lib) (sender : Sender) (f : Faucet) (r : Request)
    (hf : f.totalDispensed ≤ MaxCoinsPer5Min) :
    (dispenseCoins lib sender f r).faucet.totalDispensed ≤ MaxCoinsPer5Min ∧
      ∀ m, (dispenseCoins lib sender f r).marked = some m →
        m.totalDispensed ≤ MaxCoinsPer5Min := by
  unfold dispenseCoins
  split
  · exact ⟨hf, fun m hm => by cases hm⟩
  · split
    · exact ⟨hf, fun m hm => by cases hm⟩
    · rename_i amount t hv
      have hlt := validateDispenseArgs_ok_total lib f _ amount t hv
      simp only [CoinsPerRequest, MaxCoinsPer5Min] at hlt hf ⊢
      split
      · exact ⟨hf, fun m hm => by cases hm⟩
      · split
        · refine ⟨by simp only []; omega, fun m hm => ?_⟩
          simp only [Option.some.injEq] at hm
          subst hm
          simp only []
          omega
        · refine ⟨by simp only []; omega, fun m hm => ?_⟩
          simp only [Option.some.injEq] at hm
          subst hm
          simp only []
          omega

theorem visited_total_le (lib : Lib) (evs : List Event) :
    ∀ f : Faucet, f.totalDispensed ≤ MaxCoinsPer5Min →
      ∀ s ∈ visited lib f evs, s.totalDispensed ≤ MaxCoinsPer5Min := by
  induction evs with
  | nil =>
    intro f hf s hs
    simp only [visited, List.mem_singleton] at hs
    subst hs
    exact hf
  | cons ev rest ih =>
    intro f hf s hs
    cases ev with
    | request r sender =>
      have hd := dispenseCoins_total_le lib sender f r hf
      simp only [visited, List.mem_cons, List.mem_append, Option.mem_toList,
        Option.mem_def] at hs
      rcases hs with hs | hs | hs
      · subst hs
        exact hf
      · exact hd.2 s hs
      · exact ih _ hd.1 s hs
    | reset =>
      simp only [visited, List.mem_cons] at hs
      rcases hs with hs | hs
      · subst hs
        exact hf
      · exact ih _ (by simp [resetHandler, MaxCoinsPer5Min]) s hs

/-- C4: every guard state the faucet passes through from `NewFaucet`, under any sequence of
handled requests (denied, sent, or rolled back) and window resets, the state between the
mark and the send included, has `totalDispensed` at most `MaxCoinsPer5Min` (100). -/
theorem totalDispensed_never_exceeds_cap (lib : Lib) (evs : List Event) (s : Faucet)
    (hs : s ∈ visited lib NewFaucet evs) :
    s.totalDispensed ≤ MaxCoinsPer5Min ∧ MaxCoinsPer5Min = 100 :=
  ⟨visited_total_le lib evs NewFaucet (by simp [NewFaucet, MaxCoinsPer5Min]) s hs, rfl⟩

/-- C4 at a concrete run: one sent claim followed by a rolled back one. -/
theorem totalDispensed_never_exceeds_cap_witness :
    ({ dispensed := (BoolMap.make.set addrA true).set "10.0.0.1:5000" true,
       dispensedIP := none, totalDispensed := 1 } : Faucet) ∈
        visited sampleLib NewFaucet
          [Event.request (claimReq addrA "0.5" "10.0.0.1:5000") sendOk,
           Event.request (claimReq addrB "0.5" "10.0.0.2:5000") sendFail] ∧
      ((1 : Int) ≤ MaxCoinsPer5Min ∧ MaxCoinsPer5Min = 100) :=
  ⟨by decide!,
   totalDispensed_never_exceeds_cap sampleLib
    [Event.request (claimReq addrA "0.5" "10.0.0.1:5000") sendOk,
     Event.request (claimReq addrB "0.5" "10.0.0.2:5000") sendFail]
    { dispensed := (BoolMap.make.set addrA true).set "10.0.0.1:5000" true,
      dispensedIP := none, totalDispensed := 1 } (by decide!)⟩

/-- C6: for a request that passes the checks made before the classification (destination
set, amount parsed, in range and convertible, window below the cap, destination not flagged),
the result of `validateDispenseArgs` is fixed by the two address checks with mainchain
precedence: Mainchain whenever the mainchain decode succeeds, Sidechain when only the
deposit-address check succeeds, and otherwise the 400 error
"... is not a valid bitcoin address nor sidechain address". -/
theorem validateDispenseArgs_classification (lib : Lib) (f : Faucet) (req : DispenseRequest)
    (amountFloat : F64) (amount : Int)
    (hdest : req.Destination ≠ "")
    (hparse : lib.ParseFloat req.Amount = some amountFloat)
    (hrange : (F64.gt amountFloat (F64.fin 1) || F64.eq amountFloat (F64.fin 0)) = false)
    (hamount : NewAmount amountFloat = some amount)
    (hcap : f.totalDispensed < MaxCoinsPer5Min)
    (hfresh : f.dispensed.get req.Destination = false) :
    (lib.DecodeAddress req.Destination = true →
        validateDispenseArgs lib f req = Validated.ok amount TransferType.Mainchain) ∧
    (lib.DecodeAddress req.Destination = false →
      lib.CheckValidDepositAddress req.Destination = true →
        validateDispenseArgs lib f req = Validated.ok amount TransferType.Sidechain) ∧
    (lib.DecodeAddress req.Destination = false →
      lib.CheckValidDepositAddress req.Destination = false →
        validateDispenseArgs lib f req =
          Validated.err
            (req.Destination ++ " is not a valid bitcoin address nor sidechain address") 400) := by
  have hcap2 : ¬ f.totalDispensed ≥ MaxCoinsPer5Min := not_le.mpr hcap
  refine ⟨fun hm => ?_, fun hm hs => ?_, fun hm hs => ?_⟩
  · simp [validateDispenseArgs, hdest, hparse, hrange, hamount, hcap2, hfresh, hm]
  · simp [validateDispenseArgs, hdest, hparse, hrange, hamount, hcap2, hfresh, hm, hs]
  · simp [validateDispenseArgs, hdest, hparse, hrange, hamount, hcap2, hfresh, hm, hs,
      StatusBadRequest]

/-- C6 at concrete inputs: a destination accepted by both checks of a library is Mainchain. -/
theorem validateDispenseArgs_classification_witness :
    validateDispenseArgs { sampleLib with CheckValidDepositAddress := fun _ => true } NewFaucet
        ⟨addrA, "0.5"⟩ = Validated.ok 50000000 TransferType.Mainchain :=
  (validateDispenseArgs_classification
    { sampleLib with CheckValidDepositAddress := fun _ => true } NewFaucet ⟨addrA, "0.5"⟩
    (F64.fin (1 / 2)) 50000000 (by decide) (by decide!) (by decide!) (by decide!) (by decide)
    (by decide)).1 (by decide)

/-- C1 (failing run): in one window address A is paid, then a claim for B whose client
identifier is the string A is rolled back, which clears the flag of A, and a third claim
for A is admitted again: `SendCoins` succeeds twice for A. -/
theorem dispenseCoins_pays_address_twice :
    (outcomes sampleLib NewFaucet
      [(claimReq addrA "0.5" "10.0.0.1:5000", sendOk),
       (forwardedClaim, sendFail),
       (claimReq addrA "0.5" "10.0.0.3:5000", sendOk)]).map
        (fun o => (o.response, o.sendCall)) =
      [(Response.json "tx", some ⟨addrA, 50000000, TransferType.Mainchain⟩),
       (Response.error "could not dispense coins: rpc down" 400,
          some ⟨addrB, 50000000, TransferType.Mainchain⟩),
       (Response.json "tx", some ⟨addrA, 50000000, TransferType.Mainchain⟩)] := by
  decide!

/-- C2 (failing run): after a sent claim from client 10.0.0.1:5000, an otherwise valid
claim from the same client for another address is not throttled: `SendCoins` is called and
the txid is returned. The client flag is never written to `dispensedIP`. -/
theorem dispenseCoins_same_client_not_throttled :
    (outcomes sampleLib NewFaucet
      [(claimReq addrA "0.5" "10.0.0.1:5000", sendOk),
       (claimReq addrB "0.5" "10.0.0.1:5000", sendOk)]).map
        (fun o => (o.response, o.sendCall, o.faucet.dispensedIP)) =
      [(Response.json "tx", some ⟨addrA, 50000000, TransferType.Mainchain⟩, none),
       (Response.json "tx", some ⟨addrB, 50000000, TransferType.Mainchain⟩, none)] := by
  decide!

/-- C3 (failing run): from the reachable state `afterFirstClaim`, a claim for B with client
identifier A is admitted, its send fails, and after the undo the lookup of A in `dispensed`
answers false where it answered true before the claim (the total is restored). -/
theorem dispenseCoins_undo_clears_other_flag :
    (dispenseCoins sampleLib sendFail afterFirstClaim forwardedClaim).sendCall =
        some ⟨addrB, 50000000, TransferType.Mainchain⟩ ∧
      (dispenseCoins sampleLib sendFail afterFirstClaim forwardedClaim).response =
        Response.error "could not dispense coins: rpc down" 400 ∧
      afterFirstClaim.dispensed.get addrA = true ∧
      (dispenseCoins sampleLib sendFail afterFirstClaim forwardedClaim).faucet.dispensed.get addrA =
        false ∧
      (dispenseCoins sampleLib sendFail afterFirstClaim forwardedClaim).faucet.totalDispensed =
        afterFirstClaim.totalDispensed := by
  decide!

/-- C5 (failing input): the amount "-0.5" passes `validateDispenseArgs`, which returns
the amount of -50000000 satoshi, and `dispenseCoins` hands it to `SendCoins`. -/
theorem validateDispenseArgs_accepts_negative_amount :
    validateDispenseArgs sampleLib NewFaucet ⟨addrA, "-0.5"⟩ =
        Validated.ok (-50000000) TransferType.Mainchain ∧
      (dispenseCoins sampleLib sendOk NewFaucet (claimReq addrA "-0.5" "10.0.0.1:5000")).sendCall =
        some ⟨addrA, -50000000, TransferType.Mainchain⟩ := by
  decide!

/-! ## Properties of `SendTransaction` -/

theorem F64.lt_zero_of_eq_zero (x : F64) (h : F64.eq x (F64.fin 0) = true) :
    F64.lt x (F64.fin 0) = false := by
  cases x with
  | nan => simp [F64.eq] at h
  | inf n => simp [F64.eq] at h
  | fin q =>
    simp only [F64.eq, decide_eq_true_eq] at h
    simp [F64.lt, F64.gt, h]

theorem F64.not_eq_zero_of_gt_zero (x : F64) (h : F64.gt x (F64.fin 0) = true) :
    F64.eq x (F64.fin 0) = false ∧ F64.lt x (F64.fin 0) = false := by
  cases x with
  | nan => simp [F64.gt] at h
  | inf n => simpa [F64.eq, F64.lt, F64.gt] using h
  | fin q =>
    simp only [F64.gt, decide_eq_true_eq] at h
    simp only [F64.eq, F64.lt, F64.gt, decide_eq_false_iff_not, not_lt]
    exact ⟨ne_of_gt h, le_of_lt h⟩

theorem bitLog2Fuel_spec : ∀ (k n : Nat), n ≤ k → 0 < n →
    2 ^ bitLog2Fuel k n ≤ n ∧ n < 2 ^ (bitLog2Fuel k n + 1) := by
  intro k
  induction k with
  | zero => intro n hn hpos; omega
  | succ k ih =>
    intro n hn hpos
    unfold bitLog2Fuel
    by_cases h2 : n < 2
    · simp only [h2, if_true]
      omega
    · simp only [h2, if_false]
      have hk : n / 2 ≤ k := by omega
      have hp : 0 < n / 2 := by omega
      obtain ⟨h1, h3⟩ := ih (n / 2) hk hp
      constructor
      · rw [pow_succ]; omega
      · rw [pow_succ]; omega

theorem bitLog2_le (n b : Nat) (hpos : 0 < n) (h : n < 2 ^ (b + 1)) : bitLog2 n ≤ b := by
  have h1 := (bitLog2Fuel_spec n n (le_refl n) hpos).1
  by_contra hc
  have : 2 ^ (b + 1) ≤ 2 ^ bitLog2 n := Nat.pow_le_pow_right (by norm_num) (by omega)
  unfold bitLog2 at this
  omega

theorem roundHalfEven_one (n : Nat) : roundHalfEven n 1 = n := by
  simp [roundHalfEven, Nat.mod_one]

/-- Rounding to float64 keeps a natural number below `2 ^ 53`. -/
theorem F64.ofRat_natCast (n : Nat) (h : n < 2 ^ 53) : F64.ofRat (n : ℚ) = F64.fin (n : ℚ) := by
  by_cases h0 : n = 0
  · subst h0; simp [F64.ofRat]
  have hpos : 0 < n := Nat.pos_of_ne_zero h0
  have hq : ((n : ℚ) = 0) = False := by simp [h0]
  have hL : bitLog2 n ≤ 52 := bitLog2_le n 52 hpos h
  have hb1 : bitLog2 1 = 0 := by decide
  have hpow := (bitLog2Fuel_spec n n (le_refl n) hpos).1
  have hfl : floorLog2 n 1 = (bitLog2 n : Int) := by
    simp only [floorLog2, hb1]
    have : (0 : Int) ≤ (bitLog2 n : Int) - ((0 : Nat) : Int) := by simp
    simp only [this, if_true]
    simp [bitLog2, hpow]
  have hx : max ((bitLog2 n : Int) - 52) (-1074) = (bitLog2 n : Int) - 52 := by
    apply max_eq_left; omega
  have hnn : ¬ ((n : ℚ) < 0) := by simp
  have hbig : ¬ ((2 : ℚ) ^ 1024 ≤ (n : ℚ)) := by
    have h1 : (n : ℚ) < 2 ^ 53 := by exact_mod_cast h
    have h2 : (2 : ℚ) ^ 53 ≤ 2 ^ 1024 := by norm_num
    linarith
  simp only [F64.ofRat, hq, if_false, Rat.num_natCast, Int.natAbs_ofNat, Rat.den_natCast, hfl, hx]
  by_cases hx0 : (0 : Int) ≤ (bitLog2 n : Int) - 52
  · have hz : ((bitLog2 n : Int) - 52).toNat = 0 := by omega
    simp only [hx0, if_true, hz, pow_zero, mul_one, roundHalfEven_one, hnn, if_false]
    simp [hbig]
  · simp only [hx0, if_false, one_mul, roundHalfEven_one, hnn]
    have hr : ((n * 2 ^ (-((bitLog2 n : Int) - 52)).toNat : Nat) : ℚ) /
        2 ^ (-((bitLog2 n : Int) - 52)).toNat = (n : ℚ) := by
      push_cast
      field_simp
    rw [hr]
    simp [hbig]

/-- Rounding to float64 keeps the negative of a natural number below `2 ^ 53`. -/
theorem F64.ofRat_neg_natCast (n : Nat) (h : n < 2 ^ 53) :
    F64.ofRat (-(n : ℚ)) = F64.fin (-(n : ℚ)) := by
  by_cases h0 : n = 0
  · subst h0; simp [F64.ofRat]
  have hpos : 0 < n := Nat.pos_of_ne_zero h0
  have hq : ((-(n : ℚ)) = 0) = False := by simp [h0]
  have hL : bitLog2 n ≤ 52 := bitLog2_le n 52 hpos h
  have hb1 : bitLog2 1 = 0 := by decide
  have hpow := (bitLog2Fuel_spec n n (le_refl n) hpos).1
  have hfl : floorLog2 n 1 = (bitLog2 n : Int) := by
    simp only [floorLog2, hb1]
    have : (0 : Int) ≤ (bitLog2 n : Int) - ((0 : Nat) : Int) := by simp
    simp only [this, if_true]
    simp [bitLog2, hpow]
  have hx : max ((bitLog2 n : Int) - 52) (-1074) = (bitLog2 n : Int) - 52 := by
    apply max_eq_left; omega
  have hneg : (-(n : ℚ)) < 0 := by
    have : (0 : ℚ) < (n : ℚ) := by exact_mod_cast hpos
    linarith
  have hbig : ¬ ((2 : ℚ) ^ 1024 ≤ (n : ℚ)) := by
    have h1 : (n : ℚ) < 2 ^ 53 := by exact_mod_cast h
    have h2 : (2 : ℚ) ^ 53 ≤ 2 ^ 1024 := by norm_num
    linarith
  have hnum : (-(n : ℚ)).num.natAbs = n := by simp
  have hden : (-(n : ℚ)).den = 1 := by simp
  simp only [F64.ofRat, hq, if_false, hnum, hden, hfl, hx]
  by_cases hx0 : (0 : Int) ≤ (bitLog2 n : Int) - 52
  · have hz : ((bitLog2 n : Int) - 52).toNat = 0 := by omega
    simp only [hx0, if_true, hz, pow_zero, mul_one, roundHalfEven_one, hneg]
    simp [hbig]
  · simp only [hx0, if_false, one_mul, roundHalfEven_one, hneg, if_true]
    have hr : ((n * 2 ^ (-((bitLog2 n : Int) - 52)).toNat : Nat) : ℚ) /
        2 ^ (-((bitLog2 n : Int) - 52)).toNat = (n : ℚ) := by
      push_cast
      field_simp
    rw [hr]
    simp [hbig]

/-- The conversion `float64(a)` is exact for an integer of absolute value below `2 ^ 53`. -/
theorem F64.ofInt_exact (a : Int) (h : a.natAbs < 2 ^ 53) : F64.ofInt a = F64.fin (a : ℚ) := by
  unfold F64.ofInt
  obtain ⟨n, hn | hn⟩ := Int.eq_nat_or_neg a
  · subst hn
    have h2 : n < 2 ^ 53 := by simpa using h
    simpa using F64.ofRat_natCast n h2
  · subst hn
    have h2 : n < 2 ^ 53 := by simpa using h
    simpa using F64.ofRat_neg_natCast n h2

/-- In the unit satoshi `ToUnit` is the conversion to float64: the divisor is `Pow10(0) = 1`. -/
theorem ToUnit_AmountSatoshi (a : Int) (h : a.natAbs < 2 ^ 53) :
    ToUnit a AmountSatoshi = F64.fin (a : ℚ) := by
  have hp : Pow10 (AmountSatoshi + 8) = F64.fin 1 := by decide!
  have ha := F64.ofInt_exact a h
  unfold ToUnit
  rw [hp, ha]
  simp only [F64.div, one_ne_zero, if_false, div_one]
  unfold F64.ofInt at ha
  exact ha

theorem collectDestinations_dust (amountString : Int → String) (ds : List (String × Int))
    (h : ∃ d ∈ ds, d.2 < dustLimit) :
    ∃ msg, collectDestinations amountString ds = Except.error (Err.invalidArgument msg) := by
  induction ds with
  | nil => simp at h
  | cons d rest ih =>
    obtain ⟨address, amount⟩ := d
    by_cases hd : amount < dustLimit
    · simp only [collectDestinations, hd, if_true]
      exact ⟨_, rfl⟩
    · have hrest : ∃ d ∈ rest, d.2 < dustLimit := by
        obtain ⟨x, hx, hlt⟩ := h
        rcases List.mem_cons.mp hx with rfl | hx
        · exact absurd hlt hd
        · exact ⟨x, hx, hlt⟩
      obtain ⟨msg, hmsg⟩ := ih hrest
      exact ⟨msg, by simp [collectDestinations, hd, hmsg]⟩

theorem collectDestinations_ok (amountString : Int → String) (ds : List (String × Int))
    (h : ∀ d ∈ ds, dustLimit ≤ d.2) :
    collectDestinations amountString ds = Except.ok (ds.map (fun d => (d.1, int64 d.2))) := by
  induction ds with
  | nil => rfl
  | cons d rest ih =>
    obtain ⟨address, amount⟩ := d
    have hd : ¬ amount < dustLimit := not_lt.mpr (h (address, amount) (List.mem_cons_self _ _))
    have hrest := ih (fun x hx => h x (List.mem_cons_of_mem _ hx))
    simp [collectDestinations, hd, hrest]

theorem createSignBroadcast_calls (wallet : Wallet) (ds : List (String × Int)) (rate : F64) :
    ∃ rest, (createSignBroadcast wallet ds rate).2 = Call.CreateTransaction ds rate :: rest ∧
      ∀ t m, Call.EstimateSmartFee t m ∉ rest := by
  unfold createSignBroadcast
  split
  · exact ⟨[], rfl, by simp⟩
  · split
    · exact ⟨_, rfl, by simp⟩
    · split
      · exact ⟨_, rfl, by simp⟩
      · exact ⟨_, rfl, by simp⟩

theorem SendTransaction_of_valid (amountString : Int → String) (s : Server)
    (c : SendTransactionRequest) (rate : F64) (pre : List Call)
    (hne : c.Destinations ≠ [])
    (hfee : F64.lt c.SatoshiPerVbyte (F64.fin 0) = false)
    (hdust : ∀ d ∈ c.Destinations, dustLimit ≤ d.2)
    (hrate : resolveFeeRate s.bitcoind c.SatoshiPerVbyte = (Except.ok rate, pre)) :
    SendTransaction amountString s c =
      ((createSignBroadcast s.wallet (c.Destinations.map (fun d => (d.1, int64 d.2))) rate).1,
        pre ++ (createSignBroadcast s.wallet
          (c.Destinations.map (fun d => (d.1, int64 d.2))) rate).2) := by
  have hlen : ¬ c.Destinations.length = 0 := by
    simpa [List.length_eq_zero] using hne
  simp [SendTransaction, hlen, hfee, hrate, collectDestinations_ok amountString _ hdust]

theorem SendTransaction_of_dust (amountString : Int → String) (s : Server)
    (c : SendTransactionRequest)
    (hne : c.Destinations ≠ [])
    (hfee : F64.lt c.SatoshiPerVbyte (F64.fin 0) = false)
    (hdust : ∃ d ∈ c.Destinations, d.2 < dustLimit) :
    ∃ msg, SendTransaction amountString s c =
      (match (resolveFeeRate s.bitcoind c.SatoshiPerVbyte).1 with
        | Except.error e => Except.error e
        | Except.ok _ => Except.error (Err.invalidArgument msg),
       (resolveFeeRate s.bitcoind c.SatoshiPerVbyte).2) := by
  have hlen : ¬ c.Destinations.length = 0 := by
    simpa [List.length_eq_zero] using hne
  obtain ⟨msg, hmsg⟩ := collectDestinations_dust amountString _ hdust
  refine ⟨msg, ?_⟩
  simp only [SendTransaction, hlen, hfee, if_false, Bool.false_eq_true, hmsg]
  rcases hr : resolveFeeRate s.bitcoind c.SatoshiPerVbyte with ⟨r, calls⟩
  cases r <;> rfl

/-- C7 (counterexample): one destination of 500 satoshi and fee rate 0. The estimator is
invoked before the dust check; when it answers, the dust error is returned after that call,
and when it fails the call returns the estimator's error, not an invalid-argument error. -/
theorem SendTransaction_dust_queries_estimator :
    SendTransaction sampleAmountString (sampleServer 20 (Except.ok sampleQuote))
        ⟨[("bc1qdest", 500)], F64.fin 0⟩ =
      (Except.error (Err.invalidArgument
          "amount to bc1qdest is below dust limit (0.00000546 BTC): 0.000005 BTC"),
        [Call.EstimateSmartFee 2 EstimateMode.ECONOMICAL]) ∧
    SendTransaction sampleAmountString (sampleServer 20 (Except.error (Err.other "estimator down")))
        ⟨[("bc1qdest", 500)], F64.fin 0⟩ =
      (Except.error (Err.other "estimator down"),
        [Call.EstimateSmartFee 2 EstimateMode.ECONOMICAL]) := by
  decide!

/-- C7 (amended): for a request with at least one destination, a fee rate that is not
negative and some destination below the dust limit of 546, `CreateTransaction`,
`SignTransaction` and `BroadcastTransaction` are never invoked. With a fee rate other than 0
no collaborator is invoked at all and the call returns an invalid-argument error. With fee
rate 0 the estimator is queried once (target 2, economical) before the dust check: the call
returns the estimator's error if it fails, the conversion error if its quote is not a valid
amount, and the invalid-argument dust error otherwise. -/
theorem SendTransaction_dust_rejected (amountString : Int → String) (s : Server)
    (c : SendTransactionRequest)
    (hne : c.Destinations ≠ [])
    (hfee : F64.lt c.SatoshiPerVbyte (F64.fin 0) = false)
    (hdust : ∃ d ∈ c.Destinations, d.2 < dustLimit) :
    dustLimit = 546 ∧
    (∀ call ∈ (SendTransaction amountString s c).2,
      call = Call.EstimateSmartFee 2 EstimateMode.ECONOMICAL) ∧
    (F64.eq c.SatoshiPerVbyte (F64.fin 0) = false →
      (SendTransaction amountString s c).2 = [] ∧
        ∃ msg, (SendTransaction amountString s c).1 = Except.error (Err.invalidArgument msg)) ∧
    (F64.eq c.SatoshiPerVbyte (F64.fin 0) = true →
      (SendTransaction amountString s c).2 = [Call.EstimateSmartFee 2 EstimateMode.ECONOMICAL] ∧
      (∀ e, s.bitcoind.EstimateSmartFee 2 EstimateMode.ECONOMICAL = Except.error e →
        (SendTransaction amountString s c).1 = Except.error e) ∧
      (∀ q, s.bitcoind.EstimateSmartFee 2 EstimateMode.ECONOMICAL = Except.ok q →
        NewAmount q = none →
        (SendTransaction amountString s c).1 = Except.error (Err.other "invalid bitcoin amount")) ∧
      (∀ q k, s.bitcoind.EstimateSmartFee 2 EstimateMode.ECONOMICAL = Except.ok q →
        NewAmount q = some k →
        ∃ msg, (SendTransaction amountString s c).1 = Except.error (Err.invalidArgument msg))) := by
  obtain ⟨msg, hmsg⟩ := SendTransaction_of_dust amountString s c hne hfee hdust
  rw [hmsg]
  refine ⟨rfl, ?_, ?_, ?_⟩
  · intro call hcall
    simp only [resolveFeeRate] at hcall
    split at hcall
    · split at hcall
      · simpa using hcall
      · split at hcall <;> simpa using hcall
    · simp at hcall
  · intro hz
    simp only [resolveFeeRate, hz, Bool.false_eq_true, if_false]
    exact ⟨trivial, msg, rfl⟩
  · intro hz
    simp only [resolveFeeRate, hz, if_true]
    refine ⟨?_, ?_, ?_, ?_⟩
    · split
      · rfl
      · split <;> rfl
    · intro e he
      simp only [he]
    · intro q hq hk
      simp only [hq, hk]
    · intro q k hq hk
      simp only [hq, hk]
      exact ⟨msg, rfl⟩

/-- C7 (amended) at a concrete request: a destination of 500 satoshi at 3 satoshi per vbyte. -/
theorem SendTransaction_dust_rejected_witness :
    (SendTransaction sampleAmountString (sampleServer 20 (Except.ok sampleQuote))
        ⟨[("bc1qdest", 500)], F64.fin 3⟩).2 = [] :=
  ((SendTransaction_dust_rejected sampleAmountString
      (sampleServer 20 (Except.ok sampleQuote))
      ⟨[("bc1qdest", 500)], F64.fin 3⟩ (by decide) (by decide!)
      ⟨("bc1qdest", 500), by decide, by decide⟩).2.2.1 (by decide!)).1

/-- C9 (counterexample): for the float64 quote 0.000015 per kB (1500 satoshi per kB) the
rate handed to `CreateTransaction` is 1 satoshi per vbyte; the quote divided by 1000 is 1.5
satoshi (0.000000015 coin) per vbyte, in whichever unit the two are compared. -/
theorem SendTransaction_fee_rate_truncated :
    (SendTransaction sampleAmountString (sampleServer 20 (Except.ok lowQuote))
        ⟨[("bc1qdest", 1000)], F64.fin 0⟩).2 =
      [Call.EstimateSmartFee 2 EstimateMode.ECONOMICAL,
       Call.CreateTransaction [("bc1qdest", 1000)] (F64.fin 1),
       Call.SignTransaction "unsigned", Call.BroadcastTransaction "signed"] ∧
    NewAmount lowQuote = some 1500 ∧
    F64.eq (F64.fin 1)
      (F64.div (F64.mul lowQuote (F64.fin SatoshiPerBitcoin)) (F64.fin 1000)) = false ∧
    F64.eq (F64.div (F64.fin 1) (F64.fin SatoshiPerBitcoin))
      (F64.div lowQuote (F64.fin 1000)) = false ∧
    F64.eq (F64.fin 1) (F64.div lowQuote (F64.fin 1000)) = false := by
  decide!

/-- C9 (amended): for a request that passes validation (destinations present, none below
the dust limit). If the supplied fee rate is 0, the estimator is queried exactly once, with
confirmation target 2 and the economical mode, whatever it answers: when it fails, or when
its quote is not a valid amount, the call returns that error and invokes nothing else; when
its quote converts to `k` satoshi per kB, the rate handed to `CreateTransaction` is
`float64` of the integer quotient of `k` by 1000 (truncated), in satoshi per vbyte, which
is that whole number itself below `2 ^ 53`; for the quote 0.00011 it is 11. If the supplied
fee rate is positive, the estimator is not queried and the supplied rate is handed over
unchanged. -/
theorem SendTransaction_fee_rate (amountString : Int → String) (s : Server)
    (c : SendTransactionRequest)
    (hne : c.Destinations ≠ [])
    (hdust : ∀ d ∈ c.Destinations, dustLimit ≤ d.2) :
    (F64.eq c.SatoshiPerVbyte (F64.fin 0) = true →
      (∀ e, s.bitcoind.EstimateSmartFee 2 EstimateMode.ECONOMICAL = Except.error e →
        SendTransaction amountString s c =
          (Except.error e, [Call.EstimateSmartFee 2 EstimateMode.ECONOMICAL])) ∧
      (∀ q, s.bitcoind.EstimateSmartFee 2 EstimateMode.ECONOMICAL = Except.ok q →
        NewAmount q = none →
        SendTransaction amountString s c =
          (Except.error (Err.other "invalid bitcoin amount"),
            [Call.EstimateSmartFee 2 EstimateMode.ECONOMICAL])) ∧
      (∀ q k, s.bitcoind.EstimateSmartFee 2 EstimateMode.ECONOMICAL = Except.ok q →
        NewAmount q = some k →
        (∃ rest, (SendTransaction amountString s c).2 =
            Call.EstimateSmartFee 2 EstimateMode.ECONOMICAL ::
              Call.CreateTransaction (c.Destinations.map (fun d => (d.1, int64 d.2)))
                (ToUnit (Int.tdiv k 1000) AmountSatoshi) :: rest ∧
          ∀ t m, Call.EstimateSmartFee t m ∉ rest) ∧
        ((Int.tdiv k 1000).natAbs < 2 ^ 53 →
          ToUnit (Int.tdiv k 1000) AmountSatoshi = F64.fin ((Int.tdiv k 1000 : Int) : ℚ)))) ∧
    (F64.gt c.SatoshiPerVbyte (F64.fin 0) = true →
      ∃ rest, (SendTransaction amountString s c).2 =
          Call.CreateTransaction (c.Destinations.map (fun d => (d.1, int64 d.2)))
            c.SatoshiPerVbyte :: rest ∧
        ∀ t m, Call.EstimateSmartFee t m ∉ rest) ∧
    NewAmount sampleQuote = some 11000 ∧
    ToUnit (Int.tdiv 11000 1000) AmountSatoshi = F64.fin 11 := by
  have hlen : ¬ c.Destinations.length = 0 := by
    simpa [List.length_eq_zero] using hne
  refine ⟨fun hz => ⟨?_, ?_, ?_⟩, ?_, by decide!, by decide!⟩
  · intro e he
    simp [SendTransaction, hlen, F64.lt_zero_of_eq_zero _ hz, resolveFeeRate, hz, he]
  · intro q hq hk
    simp [SendTransaction, hlen, F64.lt_zero_of_eq_zero _ hz, resolveFeeRate, hz, hq, hk]
  · intro q k hq hk
    have hrate : resolveFeeRate s.bitcoind c.SatoshiPerVbyte =
        (Except.ok (ToUnit (Int.tdiv k 1000) AmountSatoshi),
          [Call.EstimateSmartFee 2 EstimateMode.ECONOMICAL]) := by
      simp only [resolveFeeRate, hz, if_true, hq, hk]
    rw [SendTransaction_of_valid amountString s c _ _ hne
      (F64.lt_zero_of_eq_zero _ hz) hdust hrate]
    obtain ⟨rest, hrest, hno⟩ := createSignBroadcast_calls s.wallet
      (c.Destinations.map (fun d => (d.1, int64 d.2))) (ToUnit (Int.tdiv k 1000) AmountSatoshi)
    exact ⟨⟨rest, by simp [hrest], hno⟩, fun hsmall => ToUnit_AmountSatoshi _ hsmall⟩
  · intro hpos
    obtain ⟨hz, hlt⟩ := F64.not_eq_zero_of_gt_zero _ hpos
    have hrate : resolveFeeRate s.bitcoind c.SatoshiPerVbyte =
        (Except.ok c.SatoshiPerVbyte, []) := by
      simp only [resolveFeeRate, hz, Bool.false_eq_true, if_false]
    rw [SendTransaction_of_valid amountString s c _ _ hne hlt hdust hrate]
    obtain ⟨rest, hrest, hno⟩ := createSignBroadcast_calls s.wallet
      (c.Destinations.map (fun d => (d.1, int64 d.2))) c.SatoshiPerVbyte
    exact ⟨rest, by simp [hrest], hno⟩

/-- C9 (amended) at the quote 0.00011 per kB: the estimator is queried once and the rate
handed over is that of 11 satoshi per vbyte. -/
theorem SendTransaction_fee_rate_witness :
    ∃ rest, (SendTransaction sampleAmountString (sampleServer 20 (Except.ok sampleQuote))
        ⟨[("bc1qdest", 1000)], F64.fin 0⟩).2 =
      Call.EstimateSmartFee 2 EstimateMode.ECONOMICAL ::
        Call.CreateTransaction ([("bc1qdest", (1000 : Int))].map (fun d => (d.1, int64 d.2)))
          (ToUnit (Int.tdiv 11000 1000) AmountSatoshi) :: rest ∧
      ∀ t m, Call.EstimateSmartFee t m ∉ rest :=
  (((SendTransaction_fee_rate sampleAmountString (sampleServer 20 (Except.ok sampleQuote))
    ⟨[("bc1qdest", 1000)], F64.fin 0⟩ (by decide) (by decide)).1 (by decide!)).2.2
    sampleQuote 11000 rfl (by decide!)).1

theorem sampleChain_fetch (tip : Nat) (quote : Except Err F64) (h : Nat) (hh : h ≤ tip) :
    ∃ hash block, (sampleChain tip quote).GetBlockHash h = Except.ok hash ∧
      (sampleChain tip quote).GetBlock hash = Except.ok block ∧ block.Height = h := by
  refine ⟨String.mk (List.replicate h 'x'),
    { Time := 0, Height := h, Hash := String.mk (List.replicate h 'x') }, ?_, ?_, rfl⟩
  · simp [sampleChain, hh]
  · have hl : (String.mk (List.replicate h 'x')).length = h := by
      show (List.replicate h 'x').length = h
      simp
    simp [sampleChain, hl, hh]

theorem fetchBlock_ok (bitcoind : Bitcoind) (H i : Nat) (hH : numBlocks - 1 ≤ H)
    (hu : H < 2 ^ 32) (hi : i < numBlocks)
    (hfetch : ∀ h ≤ H, ∃ hash block, bitcoind.GetBlockHash h = Except.ok hash ∧
      bitcoind.GetBlock hash = Except.ok block ∧ block.Height = h) :
    ∃ b, fetchBlock bitcoind H i = Except.ok b ∧ b.BlockHeight = H - i := by
  have hheight : (H + 2 ^ 32 - i % 2 ^ 32) % 2 ^ 32 = H - i := by
    simp only [numBlocks] at hH hi
    norm_num at hu ⊢
    omega
  obtain ⟨hash, block, h1, h2, h3⟩ := hfetch (H - i) (Nat.sub_le H i)
  refine ⟨{ BlockTime := block.Time, BlockHeight := block.Height, Hash := block.Hash }, ?_, h3⟩
  simp only [fetchBlock, hheight, h1, h2]

theorem poolWait_ok (task : Nat → Except Err RecentBlock) (H : Nat) (l : List Nat)
    (h : ∀ i ∈ l, ∃ b, task i = Except.ok b ∧ b.BlockHeight = H - i) :
    ∃ bs, poolWait task l = Except.ok bs ∧
      bs.map (fun b => b.BlockHeight) = l.map (fun i => H - i) := by
  induction l with
  | nil => exact ⟨[], rfl, rfl⟩
  | cons i rest ih =>
    obtain ⟨b, hb, hbh⟩ := h i (List.mem_cons_self _ _)
    obtain ⟨bs, hbs, hmap⟩ := ih (fun j hj => h j (List.mem_cons_of_mem _ hj))
    exact ⟨b :: bs, by simp [poolWait, hb, hbs], by simp [hbh, hmap]⟩

theorem descending_run_sorted (H n : Nat) (hn : n - 1 ≤ H) :
    ((List.range n).map (fun i => H - i)).Pairwise (fun a b => a > b) := by
  rw [List.pairwise_map]
  refine (List.pairwise_lt_range n).imp_of_mem ?_
  intro a b ha hb hab
  have hb2 := List.mem_range.mp hb
  show H - a > H - b
  omega

/-- C8 (counterexample): on a chain of height 3 whose existing heights 0..3 all answer, the
ten tasks ask for the heights 3, 2, 1, 0 and then, by uint32 wrap-around, for 4294967295 and
below; that fetch fails and the call returns its error instead of min(10, 3+1) = 4 blocks. -/
theorem ListRecentBlocks_short_chain :
    (∀ h ≤ 3, ∃ hash block,
      (sampleChain 3 (Except.ok (F64.fin 0))).GetBlockHash h = Except.ok hash ∧
      (sampleChain 3 (Except.ok (F64.fin 0))).GetBlock hash = Except.ok block ∧
      block.Height = h) ∧
    ListRecentBlocks (sampleServer 3 (Except.ok (F64.fin 0))) (List.range 10) =
      Except.error (Err.wrapped "get block hash 4294967295" (Err.other "Block height out of range")) :=
  ⟨fun h hh => sampleChain_fetch 3 _ h hh, by decide!⟩

/-- C8 (amended): for every chain height `H` with `9 ≤ H < 2^32` on which every hash and
block fetch for a height up to `H` succeeds and `GetBlock` reports the height asked for,
`ListRecentBlocks` returns exactly 10 blocks, strictly descending by height, whose heights
are `H, H-1, ..., H-9`, in whatever order the ten fetches complete. -/
theorem ListRecentBlocks_recent (s : Server) (H : Nat) (completion : List Nat)
    (hH : 9 ≤ H) (hu : H < 2 ^ 32)
    (hinfo : s.bitcoind.GetBlockchainInfo = Except.ok H)
    (hfetch : ∀ h ≤ H, ∃ hash block, s.bitcoind.GetBlockHash h = Except.ok hash ∧
      s.bitcoind.GetBlock hash = Except.ok block ∧ block.Height = h)
    (hperm : completion.Perm (List.range numBlocks)) :
    ∃ blocks, ListRecentBlocks s completion = Except.ok blocks ∧
      blocks.length = 10 ∧
      blocks.map (fun b => b.BlockHeight) = (List.range 10).map (fun i => H - i) ∧
      blocks.Pairwise (fun a b => a.BlockHeight > b.BlockHeight) := by
  have htasks : ∀ i ∈ completion,
      ∃ b, fetchBlock s.bitcoind H i = Except.ok b ∧ b.BlockHeight = H - i := by
    intro i hi
    have hi2 : i < numBlocks := List.mem_range.mp (hperm.subset hi)
    exact fetchBlock_ok s.bitcoind H i (by simpa [numBlocks] using hH) hu hi2 hfetch
  obtain ⟨bs, hbs, hmap⟩ := poolWait_ok (fetchBlock s.bitcoind H) H completion htasks
  have hrun := descending_run_sorted H 10 (by simpa using hH)
  have hp : ((List.insertionSort heightDescending bs).map (fun b => b.BlockHeight)).Perm
      ((List.range 10).map (fun i => H - i)) := by
    refine ((List.perm_insertionSort heightDescending bs).map _).trans ?_
    rw [hmap]
    exact hperm.map _
  have hs1 : ((List.insertionSort heightDescending bs).map (fun b => b.BlockHeight)).Sorted
      (fun a b => a ≥ b) := by
    have := List.sorted_insertionSort heightDescending bs
    exact List.pairwise_map.mpr this
  have hs2 : ((List.range 10).map (fun i => H - i)).Sorted (fun a b => a ≥ b) :=
    hrun.imp (fun h => Nat.le_of_lt h)
  have heq := List.eq_of_perm_of_sorted hp hs1 hs2
  refine ⟨List.insertionSort heightDescending bs, ?_, ?_, heq, ?_⟩
  · simp only [ListRecentBlocks, hinfo, hbs]
  · have := congrArg List.length heq
    simpa using this
  · have h2 : ((List.insertionSort heightDescending bs).map (fun b => b.BlockHeight)).Pairwise
        (fun a b => a > b) := by
      rw [heq]
      exact hrun
    exact List.pairwise_map.mp h2

/-- C8 (amended) on a chain of height 12 with a scrambled completion order. -/
theorem ListRecentBlocks_recent_witness :
    ∃ blocks, ListRecentBlocks (sampleServer 12 (Except.ok (F64.fin 0)))
        [3, 1, 2, 0, 9, 8, 5, 6, 7, 4] = Except.ok blocks ∧
      blocks.length = 10 ∧
      blocks.map (fun b => b.BlockHeight) = (List.range 10).map (fun i => 12 - i) ∧
      blocks.Pairwise (fun a b => a.BlockHeight > b.BlockHeight) :=
  ListRecentBlocks_recent (sampleServer 12 (Except.ok (F64.fin 0))) 12
    [3, 1, 2, 0, 9, 8, 5, 6, 7, 4] (by decide) (by decide) rfl
    (fun h hh => sampleChain_fetch 12 _ h hh) (by decide)

end Sidesail
